import Mathlib

/-!
# Workflow-manager lifecycle of `go/vt/vtctld/workflow.go`

A shallow embedding of `initWorkflowManager`, `runWorkflowManagerAlone` and
`runWorkflowManagerElection`.  Calls that leave the file (topology server,
`servenv`, the workflow manager, `context`, `time`, `log`) are recorded as
events; whatever such a call hands back is an input of the model.
-/

namespace Vtctld

/-- Identity of a `context.Context` value; `0` stands for `context.Background()`. -/
abbrev Ctx := Nat

/-- The value `context.Background()`. -/
def Background : Ctx := 0

/-- Go's `time.Second`, in nanoseconds. -/
def Second : Nat := 1000000000

/-- Non-nil Go error values: the sentinel `topo.ErrInterrupted` and every other error.
A nil error is `Option.none`. -/
inductive TopoError
  | ErrInterrupted
  | other (msg : String)
deriving DecidableEq, Repr

/-- A non-nil `topo.MasterParticipation` value, as created for `(name, id)`. -/
structure MasterParticipation where
  name : String
  id : String
deriving DecidableEq, Repr

/-- Calls that leave `workflow.go`, in the order one goroutine issues them. -/
inductive Event
  | registerKeyspaceValidator
  | registerShardValidator
  | topovalidatorRegister
  | registerWorkflowFactory
  | newManager
  | handleHTTPLongPolling (pattern : String)
  | handleHTTPWebSocket (pattern : String)
  | withCancel (parent child : Ctx)
  | goRun (ctx : Ctx)
  | goElectionLoop
  | newMasterParticipation (name id : String)
  | setRedirectFunc
  | logErrorf (format : String) (err : TopoError)
  | waitForMastership
  | runCall (ctx : Ctx)
  | runReturn (ctx : Ctx)
  | sleep (nanoseconds : Nat)
  | loopReturn
  | getCurrentMasterID (mp : MasterParticipation)
  | stop (mp : MasterParticipation)
  | cancel (ctx : Ctx)
deriving DecidableEq, Repr

/-- What one `mp.WaitForMastership()` call hands back: Go's pair `(ctx, err)`. -/
structure WaitResult where
  ctx : Ctx
  err : Option TopoError
deriving DecidableEq, Repr

/-- The goroutine of lines 76-89: `for { ctx, err := mp.WaitForMastership(); switch err ... }`.
The list holds the results of the successive `WaitForMastership` calls; when it is used
up the goroutine is blocked inside the next call.  `WorkflowManager.Run(ctx)` is a plain
(synchronous) call in the loop body, recorded by its call and its return. -/
def electionLoop : List WaitResult → List Event
  | [] => [Event.waitForMastership]
  | r :: rs =>
    Event.waitForMastership ::
      (match r.err with
       | none => Event.runCall r.ctx :: Event.runReturn r.ctx :: electionLoop rs
       | some TopoError.ErrInterrupted => [Event.loopReturn]
       | some (TopoError.other msg) =>
         Event.logErrorf "Got error while waiting for master, will retry in 5s: %v"
             (TopoError.other msg)
           :: Event.sleep (5 * Second) :: electionLoop rs)

/-- Effect of one event on the contexts under which a `WorkflowManager.Run` call is in progress. -/
def trackRun (active : List Ctx) : Event → List Ctx
  | Event.runCall c => c :: active
  | Event.goRun c => c :: active
  | Event.runReturn c => active.erase c
  | _ => active

/-- Contexts of the `WorkflowManager.Run` calls in progress after a trace. -/
def activeRuns (tr : List Event) : List Ctx :=
  tr.foldl trackRun []

/-- No result in the list carries `topo.ErrInterrupted`. -/
def NoInterrupt (rs : List WaitResult) : Prop :=
  ∀ r ∈ rs, r.err ≠ some TopoError.ErrInterrupted

instance (rs : List WaitResult) : Decidable (NoInterrupt rs) := by
  unfold NoInterrupt; infer_instance

/-! ## The loop as a transition system -/

/-- Where the goroutine of lines 76-89 stands. -/
inductive LoopPc
  | waiting
  | running (ctx : Ctx)
  | sleeping
  | returned
deriving DecidableEq, Repr

/-- What the outside hands the blocked goroutine: the return of the call it is blocked in. -/
inductive LoopInput
  | waitReturns (r : WaitResult)
  | runReturns
  | sleepReturns
deriving DecidableEq, Repr

/-- One iteration fragment of the loop of lines 77-88: from the blocking call the goroutine is
in, through the return of that call, to the next blocking call (or the `return` of line 83).
An input for a call the goroutine is not in is not accepted. -/
def loopStep : LoopPc → LoopInput → Option (LoopPc × List Event)
  | LoopPc.waiting, LoopInput.waitReturns r =>
    (match r.err with
     | none => some (LoopPc.running r.ctx, [Event.runCall r.ctx])
     | some TopoError.ErrInterrupted => some (LoopPc.returned, [Event.loopReturn])
     | some (TopoError.other msg) =>
       some (LoopPc.sleeping,
         [Event.logErrorf "Got error while waiting for master, will retry in 5s: %v"
            (TopoError.other msg), Event.sleep (5 * Second)]))
  | LoopPc.running ctx, LoopInput.runReturns =>
    some (LoopPc.waiting, [Event.runReturn ctx, Event.waitForMastership])
  | LoopPc.sleeping, LoopInput.sleepReturns =>
    some (LoopPc.waiting, [Event.waitForMastership])
  | _, _ => none

/-- Events of the loop along a sequence of inputs, from a given position; it ends at the first
input that is not accepted. -/
def loopTrace : LoopPc → List LoopInput → List Event
  | _, [] => []
  | pc, i :: is =>
    match loopStep pc i with
    | none => []
    | some (pc2, evs) => evs ++ loopTrace pc2 is

/-- The inputs under which every started `Run` call and every sleep returns, for a list of
`WaitForMastership` results. -/
def inputsOf : List WaitResult → List LoopInput
  | [] => []
  | r :: rs =>
    LoopInput.waitReturns r ::
      (match r.err with
       | none => LoopInput.runReturns :: inputsOf rs
       | some TopoError.ErrInterrupted => inputsOf rs
       | some (TopoError.other _) => LoopInput.sleepReturns :: inputsOf rs)

/-! ## The process: flags, hooks and the functions of the file -/

/-- The two command-line flags of lines 18-21. -/
structure Flags where
  workflowManagerInit : Bool
  workflowManagerUseElection : Bool
deriving DecidableEq, Repr

/-- Closures handed to `servenv.OnRun`: the one of lines 62-90. -/
inductive RunHook
  | election
deriving DecidableEq, Repr

/-- Closures handed to `servenv.OnTermSync`: `cancel` of line 54 and `func() { mp.Stop() }`
of lines 93-95. -/
inductive TermHook
  | cancel (ctx : Ctx)
  | stopMp
deriving DecidableEq, Repr

/-- Function values handed to `SetRedirectFunc`: the closure of lines 72-74, which reads
the variable `mp` when it is called. -/
inductive RedirectFunc
  | currentMasterOfMp
deriving DecidableEq, Repr

/-- A run-time panic of the Go program. -/
inductive Panic
  | nilDereference
deriving DecidableEq, Repr

/-- What `ts.NewMasterParticipation` hands back: `(mp, nil)` with a participation, or an
error together with whatever first component came with it (nil by Go convention). -/
inductive Registration
  | ok (mp : MasterParticipation)
  | failed (mp : Option MasterParticipation) (err : TopoError)
deriving DecidableEq, Repr

/-- State of one vtctld process as far as `workflow.go` reads and writes it. -/
structure Proc where
  /-- Whether `vtctl.WorkflowManager` has been set. -/
  manager : Bool
  /-- The variable `mp` of `runWorkflowManagerElection`; `none` is Go's nil. -/
  mp : Option MasterParticipation
  /-- The redirect function installed on the manager, if any. -/
  redirectFunc : Option RedirectFunc
  /-- Position of the election goroutine, once it has been started. -/
  loop : Option LoopPc
  /-- Calls issued so far by the election goroutine. -/
  loopEvents : List Event
  onRunHooks : List RunHook
  onTermSyncHooks : List TermHook
  /-- Identity the next `context.WithCancel` result gets. -/
  nextCtx : Ctx
  /-- Calls issued so far outside the election goroutine. -/
  trace : List Event
deriving DecidableEq, Repr

/-- A process before `initWorkflowManager` is called. -/
def Proc.start : Proc :=
  { manager := false, mp := none, redirectFunc := none, loop := none, loopEvents := [],
    onRunHooks := [], onTermSyncHooks := [], nextCtx := 1, trace := [] }

/-- Lines 47-55. -/
def runWorkflowManagerAlone (p : Proc) : Proc :=
  let ctx := p.nextCtx
  { p with
    nextCtx := p.nextCtx + 1
    trace := p.trace ++ [Event.withCancel Background ctx, Event.goRun ctx]
    onTermSyncHooks := p.onTermSyncHooks ++ [TermHook.cancel ctx] }

/-- Lines 57-96: declares `mp` (nil) and registers the two closures. -/
def runWorkflowManagerElection (p : Proc) : Proc :=
  { p with
    mp := none
    onRunHooks := p.onRunHooks ++ [RunHook.election]
    onTermSyncHooks := p.onTermSyncHooks ++ [TermHook.stopMp] }

/-- Lines 23-45; `apiPrefix` is a constant of the package declared outside the file. -/
def initWorkflowManager (flags : Flags) (apiPrefix : String) (p : Proc) : Proc :=
  if flags.workflowManagerInit then
    let p1 : Proc :=
      { p with
        manager := true
        trace := p.trace ++
          [Event.registerKeyspaceValidator, Event.registerShardValidator,
           Event.topovalidatorRegister, Event.registerWorkflowFactory, Event.newManager,
           Event.handleHTTPLongPolling (apiPrefix ++ "workflow"),
           Event.handleHTTPWebSocket (apiPrefix ++ "workflow")] }
    if flags.workflowManagerUseElection then
      runWorkflowManagerElection p1
    else
      runWorkflowManagerAlone p1
  else
    p

/-- The closure of lines 62-90, run with the result `reg` of `ts.NewMasterParticipation`
and the value `host` of `servenv.ListeningURL.Host`. -/
def electionOnRun (reg : Registration) (host : String) (p : Proc) : Proc :=
  let p1 : Proc := { p with trace := p.trace ++ [Event.newMasterParticipation "vtctld" host] }
  match reg with
  | Registration.failed m err =>
    { p1 with
      mp := m
      trace := p1.trace ++
        [Event.logErrorf "Cannot start MasterParticipation, disabling workflow manager: %v" err] }
  | Registration.ok m =>
    { p1 with
      mp := some m
      redirectFunc := some RedirectFunc.currentMasterOfMp
      loop := some LoopPc.waiting
      loopEvents := [Event.waitForMastership]
      trace := p1.trace ++ [Event.setRedirectFunc, Event.goElectionLoop] }

/-- The call the election goroutine of a process is blocked in returns: the goroutine takes
one `loopStep`.  Nothing happens when there is no such goroutine or it is not in that call. -/
def Proc.deliver (p : Proc) (i : LoopInput) : Proc :=
  match p.loop with
  | none => p
  | some pc =>
    match loopStep pc i with
    | none => p
    | some (pc2, evs) => { p with loop := some pc2, loopEvents := p.loopEvents ++ evs }

/-- Several returns in a row. -/
def Proc.deliverAll (p : Proc) (is : List LoopInput) : Proc :=
  is.foldl Proc.deliver p

/-- Whether an event is a call on the election client. -/
def isElectionCall : Event → Bool
  | Event.newMasterParticipation _ _ => true
  | Event.waitForMastership => true
  | Event.getCurrentMasterID _ => true
  | Event.stop _ => true
  | _ => false

/-- Whether an event starts `WorkflowManager.Run`. -/
def isRunStart : Event → Bool
  | Event.goRun _ => true
  | Event.runCall _ => true
  | _ => false

/-- One closure registered with `servenv.OnRun`, run. -/
def runRunHook (reg : Registration) (host : String) (p : Proc) : RunHook → Proc
  | RunHook.election => electionOnRun reg host p

/-- The host's "run" notification: the registered `OnRun` closures, in order. -/
def fireOnRun (reg : Registration) (host : String) (p : Proc) : Proc :=
  p.onRunHooks.foldl (runRunHook reg host) p

/-- One closure registered with `servenv.OnTermSync`, run: `cancel()` of line 54, or
`mp.Stop()` of line 94, a method call on the interface value `mp` that panics when it is nil. -/
def runTermHook (p : Proc) : TermHook → Except Panic Proc
  | TermHook.cancel ctx => Except.ok { p with trace := p.trace ++ [Event.cancel ctx] }
  | TermHook.stopMp =>
    match p.mp with
    | none => Except.error Panic.nilDereference
    | some m => Except.ok { p with trace := p.trace ++ [Event.stop m] }

/-- The host's "terminate" notification: the registered `OnTermSync` closures, in order. -/
def fireOnTermSync (p : Proc) : Except Panic Proc :=
  p.onTermSyncHooks.foldlM runTermHook p

/-- What `mp.GetCurrentMasterID()` hands back: Go's pair `(string, error)`. -/
structure MasterID where
  id : String
  err : Option TopoError
deriving DecidableEq, Repr

/-- A call of an installed redirect function (lines 72-74): `return mp.GetCurrentMasterID()`,
with `currentHolder` the answer of the election backend at the time of the call. -/
def callRedirectFunc (currentHolder : MasterParticipation → MasterID) (p : Proc) :
    RedirectFunc → Except Panic (MasterID × Proc)
  | RedirectFunc.currentMasterOfMp =>
    match p.mp with
    | none => Except.error Panic.nilDereference
    | some m =>
      Except.ok (currentHolder m, { p with trace := p.trace ++ [Event.getCurrentMasterID m] })

/-- Answers of the redirect resolver. -/
inductive Resolved
  | leaderUnknown
  | answer (r : MasterID)
deriving DecidableEq, Repr

/-- Modelled from the spec: `resolveLeader` of the workflow manager, whose code is outside
`workflow.go`.  While no redirect function is installed it answers `LeaderUnknown`; with one
installed it hands the call to that function. -/
def resolveLeader (currentHolder : MasterParticipation → MasterID) (p : Proc) :
    Except Panic (Resolved × Proc) :=
  match p.redirectFunc with
  | none => Except.ok (Resolved.leaderUnknown, p)
  | some f =>
    match callRedirectFunc currentHolder p f with
    | Except.error e => Except.error e
    | Except.ok (r, p2) => Except.ok (Resolved.answer r, p2)

/-- A process started with `-workflow_manager_init` and without
`-workflow_manager_use_election`. -/
def standaloneProc (apiPrefix : String) : Proc :=
  initWorkflowManager { workflowManagerInit := true, workflowManagerUseElection := false }
    apiPrefix Proc.start

/-- A process started with `-workflow_manager_init` and `-workflow_manager_use_election`,
before the "run" notification. -/
def electedProc (apiPrefix : String) : Proc :=
  initWorkflowManager { workflowManagerInit := true, workflowManagerUseElection := true }
    apiPrefix Proc.start

/-- An elected-mode process after the "run" notification with a successful registration `m`,
and after the returns `is` were delivered to its election goroutine. -/
def registeredProc (apiPrefix host : String) (m : MasterParticipation)
    (is : List LoopInput) : Proc :=
  (fireOnRun (Registration.ok m) host (electedProc apiPrefix)).deliverAll is

/-! ## A fleet of processes against one election backend -/

/-- The election loops of the processes of a fleet, and the leadership contexts the backend
has handed out and not yet ended, each with the process it was handed to. -/
structure Fleet where
  pcs : List LoopPc
  live : List (Nat × Ctx)
deriving DecidableEq, Repr

/-- A fleet of `n` processes, each blocked in its first `WaitForMastership` call. -/
def Fleet.start (n : Nat) : Fleet :=
  { pcs := List.replicate n LoopPc.waiting, live := [] }

/-- What happens in a fleet: the call process `p` is blocked in returns, or the backend
ends a leadership context (which cancels it). -/
inductive FleetEvent
  | deliver (p : Nat) (i : LoopInput)
  | revoke (p : Nat) (ctx : Ctx)
deriving DecidableEq, Repr

/-- The leadership context an input hands over, if it is a grant. -/
def grantOf : LoopInput → Option Ctx
  | LoopInput.waitReturns r => if r.err = none then some r.ctx else none
  | _ => none

/-- Bookkeeping of the backend for one fleet event. -/
def backendStep (live : List (Nat × Ctx)) : FleetEvent → List (Nat × Ctx)
  | FleetEvent.deliver p i =>
    (match grantOf i with
     | some c => (p, c) :: live
     | none => live)
  | FleetEvent.revoke p c => live.erase (p, c)

/-- One fleet event: the addressed process takes a `loopStep`; the backend keeps its books. -/
def fleetStep (f : Fleet) : FleetEvent → Option Fleet
  | FleetEvent.deliver p i =>
    (match f.pcs[p]? with
     | none => none
     | some pc =>
       match loopStep pc i with
       | none => none
       | some (pc2, _) =>
         some { pcs := f.pcs.set p pc2, live := backendStep f.live (FleetEvent.deliver p i) })
  | FleetEvent.revoke p c =>
    some { f with live := backendStep f.live (FleetEvent.revoke p c) }

/-- A schedule of fleet events, run from a fleet state. -/
def fleetRun : Fleet → List FleetEvent → Option Fleet
  | f, [] => some f
  | f, e :: es =>
    match fleetStep f e with
    | none => none
    | some f2 => fleetRun f2 es

/-- The backend grants leadership to at most one candidate at a time: along the schedule,
every grant happens while no leadership context is live. -/
def backendExclusive : List (Nat × Ctx) → List FleetEvent → Bool
  | _, [] => true
  | live, e :: es =>
    (match e with
     | FleetEvent.deliver _ i => (grantOf i).isNone || live.isEmpty
     | FleetEvent.revoke _ _ => true)
    && backendExclusive (backendStep live e) es

/-- A schedule for two processes: process 0 is granted leadership under context 1, the
backend ends that leadership, and process 1 is granted leadership under context 2, while
the `Run` call of process 0 has not returned yet. -/
def handover : List FleetEvent :=
  [FleetEvent.deliver 0 (LoopInput.waitReturns { ctx := 1, err := none }),
   FleetEvent.revoke 0 1,
   FleetEvent.deliver 1 (LoopInput.waitReturns { ctx := 2, err := none })]

/-- Processes holding a live leadership context. -/
def holders (f : Fleet) : List Nat :=
  f.live.map Prod.fst

/-- Whether process `p` is inside `WorkflowManager.Run`. -/
def insideRunAt (f : Fleet) (p : Nat) : Bool :=
  match f.pcs[p]? with
  | some (LoopPc.running _) => true
  | _ => false

/-- Processes inside `WorkflowManager.Run`. -/
def insideRun (f : Fleet) : List Nat :=
  (List.range f.pcs.length).filter (insideRunAt f)

/-- Whether process `p` is inside `WorkflowManager.Run` under a context that is still live. -/
def liveExecutorAt (f : Fleet) (p : Nat) : Bool :=
  match f.pcs[p]? with
  | some (LoopPc.running c) => decide ((p, c) ∈ f.live)
  | _ => false

/-- Processes inside `WorkflowManager.Run` under a context that is still live. -/
def liveExecutors (f : Fleet) : List Nat :=
  (List.range f.pcs.length).filter (liveExecutorAt f)

/-! ## The election loop -/

theorem activeRuns_nil : activeRuns [] = [] := rfl

theorem electionLoop_head (rs : List WaitResult) :
    ∃ t, electionLoop rs = Event.waitForMastership :: t := by
  cases rs with
  | nil => exact ⟨[], rfl⟩
  | cons r rs => exact ⟨_, rfl⟩

/-- Along the loop, from no run in progress: at most one run is in progress after any number
of events, and none when the next event is a `WaitForMastership` call or a `Run` call. -/
theorem electionLoop_runs (rs : List WaitResult) :
    ∀ n : Nat,
      ((electionLoop rs).take n).foldl trackRun [] = [] ∨
        (∃ c, ((electionLoop rs).take n).foldl trackRun [] = [c] ∧
          (electionLoop rs)[n]? = some (Event.runReturn c)) := by
  induction rs with
  | nil =>
    intro n
    left
    match n with
    | 0 => rfl
    | k + 1 => simp [electionLoop, trackRun]
  | cons r rs ih =>
    intro n
    rcases r with ⟨c, e⟩
    match e with
    | none =>
      match n with
      | 0 => left; rfl
      | 1 => left; simp [electionLoop, trackRun]
      | 2 => right; exact ⟨c, by simp [electionLoop, trackRun]⟩
      | k + 3 =>
        have h := ih k
        simpa [electionLoop, trackRun] using h
    | some TopoError.ErrInterrupted =>
      left
      match n with
      | 0 => rfl
      | 1 => simp [electionLoop, trackRun]
      | k + 2 => simp [electionLoop, trackRun]
    | some (TopoError.other msg) =>
      match n with
      | 0 => left; rfl
      | 1 => left; simp [electionLoop, trackRun]
      | 2 => left; simp [electionLoop, trackRun]
      | k + 3 =>
        have h := ih k
        simpa [electionLoop, trackRun] using h

/-- C1: in every trace of the election loop, after any number `n` of its events at most one
`WorkflowManager.Run` call is in progress, and whenever the next event is a
`WaitForMastership` call or the start of a `Run`, no `Run` call is in progress: the run
started under the previous leadership context has returned. -/
theorem election_loop_no_overlap (rs : List WaitResult) (n : Nat) :
    (activeRuns ((electionLoop rs).take n)).length ≤ 1 ∧
    ((electionLoop rs)[n]? = some Event.waitForMastership →
      activeRuns ((electionLoop rs).take n) = []) ∧
    (∀ c, (electionLoop rs)[n]? = some (Event.runCall c) →
      activeRuns ((electionLoop rs).take n) = []) := by
  unfold activeRuns
  rcases electionLoop_runs rs n with h | ⟨c, h, hn⟩
  · simp [h]
  · refine ⟨by simp [h], ?_, ?_⟩
    · intro hw
      rw [hn] at hw
      cases hw
    · intro d hd
      rw [hn] at hd
      cases hd

/-- At the second `WaitForMastership` call of a loop that was granted leadership twice, the
first run has returned. -/
theorem election_loop_no_overlap_witness :
    activeRuns ((electionLoop [⟨7, none⟩, ⟨8, none⟩]).take 3) = [] :=
  (election_loop_no_overlap [⟨7, none⟩, ⟨8, none⟩] 3).2.1 (by decide)

/-- The loop after a run of results without `ErrInterrupted`, followed by an interrupted one:
the pending call returns and the goroutine returns; later results are never asked for. -/
theorem electionLoop_interrupted (pre post : List WaitResult) (r : WaitResult)
    (hpre : NoInterrupt pre) (hr : r.err = some TopoError.ErrInterrupted) :
    electionLoop (pre ++ r :: post) = electionLoop pre ++ [Event.loopReturn] := by
  induction pre with
  | nil => simp [electionLoop, hr]
  | cons x pre ih =>
    have hx : x.err ≠ some TopoError.ErrInterrupted := hpre x (List.mem_cons_self _ _)
    have hrest : NoInterrupt pre := fun y hy => hpre y (List.mem_cons_of_mem _ hy)
    have h := ih hrest
    rcases x with ⟨c, e⟩
    match e, hx with
    | none, _ => simp [electionLoop, h]
    | some (TopoError.other msg), _ => simp [electionLoop, h]
    | some TopoError.ErrInterrupted, hx => exact absurd rfl hx

/-- The loop after a run of results without `ErrInterrupted`, followed by another error. -/
theorem electionLoop_other (pre post : List WaitResult) (r : WaitResult) (msg : String)
    (hpre : NoInterrupt pre) (hr : r.err = some (TopoError.other msg)) :
    electionLoop (pre ++ r :: post) =
      electionLoop pre ++
        Event.logErrorf "Got error while waiting for master, will retry in 5s: %v"
            (TopoError.other msg)
          :: Event.sleep (5 * Second) :: electionLoop post := by
  induction pre with
  | nil => simp [electionLoop, hr]
  | cons x pre ih =>
    have hx : x.err ≠ some TopoError.ErrInterrupted := hpre x (List.mem_cons_self _ _)
    have hrest : NoInterrupt pre := fun y hy => hpre y (List.mem_cons_of_mem _ hy)
    have h := ih hrest
    rcases x with ⟨c, e⟩
    match e, hx with
    | none, _ => simp [electionLoop, h]
    | some (TopoError.other m2), _ => simp [electionLoop, h]
    | some TopoError.ErrInterrupted, hx => exact absurd rfl hx

/-- The loop after a run of results without `ErrInterrupted`, followed by a grant. -/
theorem electionLoop_granted (pre post : List WaitResult) (r : WaitResult)
    (hpre : NoInterrupt pre) (hr : r.err = none) :
    electionLoop (pre ++ r :: post) =
      electionLoop pre ++ Event.runCall r.ctx :: Event.runReturn r.ctx :: electionLoop post := by
  induction pre with
  | nil => simp [electionLoop, hr]
  | cons x pre ih =>
    have hx : x.err ≠ some TopoError.ErrInterrupted := hpre x (List.mem_cons_self _ _)
    have hrest : NoInterrupt pre := fun y hy => hpre y (List.mem_cons_of_mem _ hy)
    have h := ih hrest
    rcases x with ⟨c, e⟩
    match e, hx with
    | none, _ => simp [electionLoop, h]
    | some (TopoError.other m2), _ => simp [electionLoop, h]
    | some TopoError.ErrInterrupted, hx => exact absurd rfl hx

/-- Without `ErrInterrupted` among the results the goroutine never returns and ends up
blocked in a further `WaitForMastership` call. -/
theorem electionLoop_never_returns (rs : List WaitResult) (h : NoInterrupt rs) :
    Event.loopReturn ∉ electionLoop rs ∧
      (electionLoop rs).getLast? = some Event.waitForMastership := by
  induction rs with
  | nil => simp [electionLoop]
  | cons x rs ih =>
    have hx : x.err ≠ some TopoError.ErrInterrupted := h x (List.mem_cons_self _ _)
    have hrest : NoInterrupt rs := fun y hy => h y (List.mem_cons_of_mem _ hy)
    obtain ⟨h1, h2⟩ := ih hrest
    obtain ⟨t, ht⟩ := electionLoop_head rs
    rcases x with ⟨c, e⟩
    match e, hx with
    | none, _ =>
      refine ⟨by simp [electionLoop, h1], ?_⟩
      simp only [electionLoop]
      rw [ht] at h2 ⊢
      simpa [List.getLast?_cons_cons] using h2
    | some (TopoError.other m2), _ =>
      refine ⟨by simp [electionLoop, h1], ?_⟩
      simp only [electionLoop]
      rw [ht] at h2 ⊢
      simpa [List.getLast?_cons_cons] using h2
    | some TopoError.ErrInterrupted, hx => exact absurd rfl hx

/-- Calls of `WaitForMastership` in a trace. -/
theorem count_wait_electionLoop (rs : List WaitResult) (h : NoInterrupt rs) :
    (electionLoop rs).count Event.waitForMastership = rs.length + 1 := by
  induction rs with
  | nil => simp [electionLoop]
  | cons x rs ih =>
    have hx : x.err ≠ some TopoError.ErrInterrupted := h x (List.mem_cons_self _ _)
    have hrest : NoInterrupt rs := fun y hy => h y (List.mem_cons_of_mem _ hy)
    have h1 := ih hrest
    rcases x with ⟨c, e⟩
    match e, hx with
    | none, _ => simp [electionLoop, h1, List.count_cons]
    | some (TopoError.other m2), _ => simp [electionLoop, h1, List.count_cons]
    | some TopoError.ErrInterrupted, hx => exact absurd rfl hx

/-- The loop never creates a context and never starts a goroutine. -/
theorem electionLoop_no_derived (rs : List WaitResult) :
    ∀ e ∈ electionLoop rs,
      (∀ a b, e ≠ Event.withCancel a b) ∧ (∀ c, e ≠ Event.goRun c) := by
  induction rs with
  | nil =>
    intro e he
    simp [electionLoop] at he
    subst he
    exact ⟨fun _ _ h => (nomatch h), fun _ h => (nomatch h)⟩
  | cons x rs ih =>
    intro e he
    rcases x with ⟨c, err⟩
    match err with
    | none =>
      simp only [electionLoop, List.mem_cons] at he
      rcases he with rfl | rfl | rfl | he
      · exact ⟨fun _ _ h => (nomatch h), fun _ h => (nomatch h)⟩
      · exact ⟨fun _ _ h => (nomatch h), fun _ h => (nomatch h)⟩
      · exact ⟨fun _ _ h => (nomatch h), fun _ h => (nomatch h)⟩
      · exact ih e he
    | some TopoError.ErrInterrupted =>
      simp only [electionLoop, List.mem_cons, List.mem_singleton] at he
      rcases he with rfl | rfl | he
      · exact ⟨fun _ _ h => (nomatch h), fun _ h => (nomatch h)⟩
      · exact ⟨fun _ _ h => (nomatch h), fun _ h => (nomatch h)⟩
      · cases he
    | some (TopoError.other msg) =>
      simp only [electionLoop, List.mem_cons] at he
      rcases he with rfl | rfl | rfl | he
      · exact ⟨fun _ _ h => (nomatch h), fun _ h => (nomatch h)⟩
      · exact ⟨fun _ _ h => (nomatch h), fun _ h => (nomatch h)⟩
      · exact ⟨fun _ _ h => (nomatch h), fun _ h => (nomatch h)⟩
      · exact ih e he

/-- C3: when the `WaitForMastership` call that follows results without `ErrInterrupted`
returns `topo.ErrInterrupted`, the goroutine returns at once: after the events up to that
call the only event is the return of the loop (no further `WaitForMastership` call, no `Run`,
no sleep), the trace ends there whatever results might have followed, and the number of
`WaitForMastership` calls is the number of results up to and including the interrupted one. -/
theorem interrupted_stops_loop (pre post : List WaitResult) (r : WaitResult)
    (hpre : NoInterrupt pre) (hr : r.err = some TopoError.ErrInterrupted) :
    electionLoop (pre ++ r :: post) = electionLoop pre ++ [Event.loopReturn] ∧
    (electionLoop (pre ++ r :: post)).getLast? = some Event.loopReturn ∧
    electionLoop (pre ++ r :: post) = electionLoop (pre ++ [r]) ∧
    (electionLoop (pre ++ r :: post)).count Event.waitForMastership = pre.length + 1 := by
  have h := electionLoop_interrupted pre post r hpre hr
  have h2 := electionLoop_interrupted pre [] r hpre hr
  refine ⟨h, ?_, ?_, ?_⟩
  · rw [h]; simp
  · rw [h, h2]
  · rw [h, List.count_append, count_wait_electionLoop pre hpre]
    simp [List.count_cons]

/-- A grant, a transient error, then the interruption: four events after it are none. -/
theorem interrupted_stops_loop_witness :
    electionLoop ([⟨1, none⟩, ⟨0, some (TopoError.other "down")⟩] ++
        ⟨0, some TopoError.ErrInterrupted⟩ :: [⟨2, none⟩]) =
      electionLoop [⟨1, none⟩, ⟨0, some (TopoError.other "down")⟩] ++ [Event.loopReturn] :=
  (interrupted_stops_loop [⟨1, none⟩, ⟨0, some (TopoError.other "down")⟩] [⟨2, none⟩]
    ⟨0, some TopoError.ErrInterrupted⟩
    (by intro x hx; simp at hx; rcases hx with rfl | rfl <;> simp) rfl).1

/-- C4: when a `WaitForMastership` call returns an error other than `topo.ErrInterrupted`,
the loop logs it, sleeps once for `5 * time.Second` and then calls `WaitForMastership` again,
starting no `Run` in between; and on results without `ErrInterrupted` the goroutine never
returns: it calls `WaitForMastership` once more than it got results and is blocked in the
last call. -/
theorem transient_error_retry :
    (∀ (pre post : List WaitResult) (r : WaitResult) (msg : String),
      NoInterrupt pre → r.err = some (TopoError.other msg) →
        electionLoop (pre ++ r :: post) =
          electionLoop pre ++
            Event.logErrorf "Got error while waiting for master, will retry in 5s: %v"
                (TopoError.other msg)
              :: Event.sleep (5 * Second) :: electionLoop post ∧
        (electionLoop post).head? = some Event.waitForMastership ∧
        5 * Second = 5000000000) ∧
    (∀ rs : List WaitResult, NoInterrupt rs →
      Event.loopReturn ∉ electionLoop rs ∧
      (electionLoop rs).getLast? = some Event.waitForMastership ∧
      (electionLoop rs).count Event.waitForMastership = rs.length + 1) := by
  refine ⟨?_, ?_⟩
  · intro pre post r msg hpre hr
    refine ⟨electionLoop_other pre post r msg hpre hr, ?_, by decide⟩
    obtain ⟨t, ht⟩ := electionLoop_head post
    rw [ht]; rfl
  · intro rs h
    exact ⟨(electionLoop_never_returns rs h).1, (electionLoop_never_returns rs h).2,
      count_wait_electionLoop rs h⟩

/-- Two transient errors in a row: two sleeps, three calls, no return. -/
theorem transient_error_retry_witness :
    electionLoop ([] ++ (⟨0, some (TopoError.other "down")⟩ : WaitResult) ::
        [⟨0, some (TopoError.other "still down")⟩]) =
      electionLoop [] ++
        Event.logErrorf "Got error while waiting for master, will retry in 5s: %v"
            (TopoError.other "down")
          :: Event.sleep (5 * Second) ::
            electionLoop [⟨0, some (TopoError.other "still down")⟩] ∧
    Event.loopReturn ∉
      electionLoop [⟨0, some (TopoError.other "down")⟩,
        ⟨0, some (TopoError.other "still down")⟩] :=
  ⟨(transient_error_retry.1 [] [⟨0, some (TopoError.other "still down")⟩]
      ⟨0, some (TopoError.other "down")⟩ "down" (by intro x hx; cases hx) rfl).1,
   (transient_error_retry.2
      [⟨0, some (TopoError.other "down")⟩, ⟨0, some (TopoError.other "still down")⟩]
      (by intro x hx; simp at hx; rcases hx with rfl | rfl <;> simp)).1⟩

/-- C10 as stated fails: a loop granted leadership under context 7 calls `Run(7)` itself and
waits for its return; no context derived from 7 is created and no goroutine is started. -/
theorem granted_run_not_derived_async :
    electionLoop [⟨7, none⟩] =
      [Event.waitForMastership, Event.runCall 7, Event.runReturn 7, Event.waitForMastership] ∧
    ¬ ∃ child, Event.withCancel 7 child ∈ electionLoop [⟨7, none⟩] ∧
        Event.goRun child ∈ electionLoop [⟨7, none⟩] := by
  refine ⟨rfl, ?_⟩
  rintro ⟨child, h, _⟩
  exact (electionLoop_no_derived _ _ h).1 7 child rfl

/-- C10, amended: whenever `WaitForMastership` returns a context without error, the loop
calls `WorkflowManager.Run` with that very context, synchronously in its own goroutine, and
issues the next `WaitForMastership` call after `Run` has returned; it creates no derived
context and starts no goroutine. -/
theorem granted_runs_synchronously (pre post : List WaitResult) (r : WaitResult)
    (hpre : NoInterrupt pre) (hr : r.err = none) :
    electionLoop (pre ++ r :: post) =
      electionLoop pre ++ Event.runCall r.ctx :: Event.runReturn r.ctx :: electionLoop post ∧
    (electionLoop post).head? = some Event.waitForMastership ∧
    (∀ e ∈ electionLoop (pre ++ r :: post),
      (∀ a b, e ≠ Event.withCancel a b) ∧ (∀ c, e ≠ Event.goRun c)) := by
  refine ⟨electionLoop_granted pre post r hpre hr, ?_, electionLoop_no_derived _⟩
  obtain ⟨t, ht⟩ := electionLoop_head post
  rw [ht]; rfl

/-- A grant after a transient error. -/
theorem granted_runs_synchronously_witness :
    electionLoop ([⟨0, some (TopoError.other "down")⟩] ++ (⟨7, none⟩ : WaitResult) :: []) =
      electionLoop [⟨0, some (TopoError.other "down")⟩] ++
        Event.runCall 7 :: Event.runReturn 7 :: electionLoop [] :=
  (granted_runs_synchronously [⟨0, some (TopoError.other "down")⟩] [] ⟨7, none⟩
    (by intro x hx; simp at hx; subst hx; simp) rfl).1

/-! ## The two transition systems agree -/

theorem loopTrace_returned (is : List LoopInput) : loopTrace LoopPc.returned is = [] := by
  cases is with
  | nil => rfl
  | cons i is => cases i <;> rfl

/-- The trace of `electionLoop` is the trace of the transition system under the inputs that
let every `Run` and every sleep return. -/
theorem electionLoop_eq_loopTrace (rs : List WaitResult) :
    electionLoop rs = Event.waitForMastership :: loopTrace LoopPc.waiting (inputsOf rs) := by
  induction rs with
  | nil => rfl
  | cons r rs ih =>
    rcases r with ⟨c, e⟩
    match e with
    | none => simp [electionLoop, inputsOf, loopTrace, loopStep, ih]
    | some TopoError.ErrInterrupted =>
      simp [electionLoop, inputsOf, loopTrace, loopStep, loopTrace_returned]
    | some (TopoError.other msg) => simp [electionLoop, inputsOf, loopTrace, loopStep, ih]

/-! ## The process -/

/-- Delivering returns to the election goroutine touches nothing but the goroutine. -/
theorem deliver_frame (p : Proc) (i : LoopInput) :
    (p.deliver i).mp = p.mp ∧ (p.deliver i).redirectFunc = p.redirectFunc ∧
    (p.deliver i).onTermSyncHooks = p.onTermSyncHooks ∧ (p.deliver i).trace = p.trace ∧
    (p.deliver i).onRunHooks = p.onRunHooks := by
  unfold Proc.deliver
  split
  · simp
  · split <;> simp

theorem deliverAll_frame (is : List LoopInput) :
    ∀ p : Proc, (p.deliverAll is).mp = p.mp ∧ (p.deliverAll is).redirectFunc = p.redirectFunc ∧
      (p.deliverAll is).onTermSyncHooks = p.onTermSyncHooks ∧
      (p.deliverAll is).trace = p.trace ∧ (p.deliverAll is).onRunHooks = p.onRunHooks := by
  induction is with
  | nil => intro p; simp [Proc.deliverAll]
  | cons i is ih =>
    intro p
    have h1 := deliver_frame p i
    have h2 := ih (p.deliver i)
    simp only [Proc.deliverAll, List.foldl_cons] at h2 ⊢
    obtain ⟨a1, a2, a3, a4, a5⟩ := h1
    obtain ⟨b1, b2, b3, b4, b5⟩ := h2
    exact ⟨b1.trans a1, b2.trans a2, b3.trans a3, b4.trans a4, b5.trans a5⟩

/-- A process whose only termination closure is `mp.Stop()` and whose `mp` is set: the
termination notification is one `Stop` call on `mp`. -/
theorem fireOnTermSync_stop (p : Proc) (m : MasterParticipation)
    (hh : p.onTermSyncHooks = [TermHook.stopMp]) (hm : p.mp = some m) :
    fireOnTermSync p = Except.ok { p with trace := p.trace ++ [Event.stop m] } := by
  simp [fireOnTermSync, hh, List.foldlM, runTermHook, hm, bind, Except.bind, pure, Except.pure]

theorem standaloneProc_eq (apiPrefix : String) :
    standaloneProc apiPrefix =
      { manager := true, mp := none, redirectFunc := none, loop := none, loopEvents := [],
        onRunHooks := [], onTermSyncHooks := [TermHook.cancel 1], nextCtx := 2,
        trace :=
          [Event.registerKeyspaceValidator, Event.registerShardValidator,
           Event.topovalidatorRegister, Event.registerWorkflowFactory, Event.newManager,
           Event.handleHTTPLongPolling (apiPrefix ++ "workflow"),
           Event.handleHTTPWebSocket (apiPrefix ++ "workflow"),
           Event.withCancel Background 1, Event.goRun 1] } := by
  simp [standaloneProc, initWorkflowManager, runWorkflowManagerAlone, Proc.start]

theorem electedProc_eq (apiPrefix : String) :
    electedProc apiPrefix =
      { manager := true, mp := none, redirectFunc := none, loop := none, loopEvents := [],
        onRunHooks := [RunHook.election], onTermSyncHooks := [TermHook.stopMp], nextCtx := 1,
        trace :=
          [Event.registerKeyspaceValidator, Event.registerShardValidator,
           Event.topovalidatorRegister, Event.registerWorkflowFactory, Event.newManager,
           Event.handleHTTPLongPolling (apiPrefix ++ "workflow"),
           Event.handleHTTPWebSocket (apiPrefix ++ "workflow")] } := by
  simp [electedProc, initWorkflowManager, runWorkflowManagerElection, Proc.start]

theorem fireOnRun_elected (apiPrefix host : String) (reg : Registration) :
    fireOnRun reg host (electedProc apiPrefix) = electionOnRun reg host (electedProc apiPrefix) := by
  simp [fireOnRun, electedProc_eq, runRunHook]

/-- C8: with `-workflow_manager_init` set and `-workflow_manager_use_election` unset,
`initWorkflowManager` creates one cancellable context (from `context.Background()`), starts
`WorkflowManager.Run` once, in a goroutine, under it, and registers one termination closure,
which cancels that context; it registers no "run" closure, installs no redirect function and
issues no call on the election client, neither at once nor on the "run" or "terminate"
notification. -/
theorem standalone_scenario (apiPrefix host : String) (reg : Registration) :
    (standaloneProc apiPrefix).trace =
      [Event.registerKeyspaceValidator, Event.registerShardValidator,
       Event.topovalidatorRegister, Event.registerWorkflowFactory, Event.newManager,
       Event.handleHTTPLongPolling (apiPrefix ++ "workflow"),
       Event.handleHTTPWebSocket (apiPrefix ++ "workflow"),
       Event.withCancel Background 1, Event.goRun 1] ∧
    (standaloneProc apiPrefix).trace.filter isRunStart = [Event.goRun 1] ∧
    (standaloneProc apiPrefix).onTermSyncHooks = [TermHook.cancel 1] ∧
    (standaloneProc apiPrefix).onRunHooks = [] ∧
    (standaloneProc apiPrefix).redirectFunc = none ∧
    (standaloneProc apiPrefix).loop = none ∧
    fireOnRun reg host (standaloneProc apiPrefix) = standaloneProc apiPrefix ∧
    fireOnTermSync (standaloneProc apiPrefix) =
      Except.ok { standaloneProc apiPrefix with
        trace := (standaloneProc apiPrefix).trace ++ [Event.cancel 1] } ∧
    ((standaloneProc apiPrefix).trace ++ [Event.cancel 1]).filter isElectionCall = [] := by
  rw [standaloneProc_eq]
  refine ⟨rfl, ?_, rfl, rfl, rfl, rfl, ?_, ?_, ?_⟩
  · simp [isRunStart]
  · simp [fireOnRun]
  · simp [fireOnTermSync, List.foldlM, runTermHook, bind, Except.bind, pure, Except.pure]
  · simp [isElectionCall]

/-- C7: when `ts.NewMasterParticipation` returns an error, the "run" closure only issues that
call and logs the error: no election goroutine is started (so no `WaitForMastership` call and
no `Run`), no redirect function is installed, and the resolver keeps answering
`LeaderUnknown`; the closure returns normally. -/
theorem registration_failure_disables (apiPrefix host : String)
    (m : Option MasterParticipation) (err : TopoError)
    (currentHolder : MasterParticipation → MasterID) :
    (fireOnRun (Registration.failed m err) host (electedProc apiPrefix)).trace =
      (electedProc apiPrefix).trace ++
        [Event.newMasterParticipation "vtctld" host,
         Event.logErrorf "Cannot start MasterParticipation, disabling workflow manager: %v"
           err] ∧
    (fireOnRun (Registration.failed m err) host (electedProc apiPrefix)).loop = none ∧
    (fireOnRun (Registration.failed m err) host (electedProc apiPrefix)).loopEvents = [] ∧
    (fireOnRun (Registration.failed m err) host (electedProc apiPrefix)).redirectFunc = none ∧
    (fireOnRun (Registration.failed m err) host (electedProc apiPrefix)).trace.filter
      isRunStart = [] ∧
    Event.goElectionLoop ∉
      (fireOnRun (Registration.failed m err) host (electedProc apiPrefix)).trace ∧
    Event.waitForMastership ∉
      (fireOnRun (Registration.failed m err) host (electedProc apiPrefix)).trace ∧
    Event.setRedirectFunc ∉
      (fireOnRun (Registration.failed m err) host (electedProc apiPrefix)).trace ∧
    resolveLeader currentHolder
        (fireOnRun (Registration.failed m err) host (electedProc apiPrefix)) =
      Except.ok (Resolved.leaderUnknown,
        fireOnRun (Registration.failed m err) host (electedProc apiPrefix)) := by
  rw [fireOnRun_elected, electedProc_eq]
  simp [electionOnRun, isRunStart, resolveLeader]

/-- C6, at the failing inputs: in elected mode the termination closure panics on the nil
`mp` both when `ts.NewMasterParticipation` had returned `(nil, err)` and when the "run"
notification never fired. -/
theorem term_hook_panics_on_nil_mp (apiPrefix host : String) (err : TopoError) :
    fireOnTermSync (fireOnRun (Registration.failed none err) host (electedProc apiPrefix)) =
      Except.error Panic.nilDereference ∧
    fireOnTermSync (electedProc apiPrefix) = Except.error Panic.nilDereference := by
  rw [fireOnRun_elected, electedProc_eq]
  simp [electionOnRun, fireOnTermSync, List.foldlM, runTermHook, bind, Except.bind]

/-- C5, at the failing input: in elected mode, after `ts.NewMasterParticipation` has returned
`(nil, err)`, there is no election goroutine and no `Run` was ever started, so no run context
exists; yet invoking the termination closure is not a no-op: it calls `Stop` on the nil `mp`
and panics, leaving no resulting process state at all. -/
theorem term_hook_without_run_context_panics (apiPrefix host : String) (err : TopoError) :
    (fireOnRun (Registration.failed none err) host (electedProc apiPrefix)).loop = none ∧
    (fireOnRun (Registration.failed none err) host (electedProc apiPrefix)).loopEvents = [] ∧
    (fireOnRun (Registration.failed none err) host (electedProc apiPrefix)).trace.filter
      isRunStart = [] ∧
    (fireOnRun (Registration.failed none err) host (electedProc apiPrefix)).onTermSyncHooks =
      [TermHook.stopMp] ∧
    (fireOnRun (Registration.failed none err) host (electedProc apiPrefix)).mp = none ∧
    fireOnTermSync (fireOnRun (Registration.failed none err) host (electedProc apiPrefix)) =
      Except.error Panic.nilDereference ∧
    ¬ ∃ p2, fireOnTermSync
        (fireOnRun (Registration.failed none err) host (electedProc apiPrefix)) =
      Except.ok p2 := by
  rw [fireOnRun_elected, electedProc_eq]
  simp [electionOnRun, fireOnTermSync, List.foldlM, runTermHook, bind, Except.bind, isRunStart]

theorem registeredProc_frame (apiPrefix host : String) (m : MasterParticipation)
    (is : List LoopInput) :
    (registeredProc apiPrefix host m is).mp = some m ∧
    (registeredProc apiPrefix host m is).redirectFunc = some RedirectFunc.currentMasterOfMp ∧
    (registeredProc apiPrefix host m is).onTermSyncHooks = [TermHook.stopMp] ∧
    (registeredProc apiPrefix host m is).trace =
      (electedProc apiPrefix).trace ++
        [Event.newMasterParticipation "vtctld" host, Event.setRedirectFunc,
         Event.goElectionLoop] := by
  obtain ⟨h1, h2, h3, h4, _⟩ :=
    deliverAll_frame is (fireOnRun (Registration.ok m) host (electedProc apiPrefix))
  unfold registeredProc
  rw [h1, h2, h3, h4, fireOnRun_elected, electedProc_eq]
  simp [electionOnRun]

/-- A call of the redirect closure while `mp` is set: one `GetCurrentMasterID` call on `mp`,
its result handed on, nothing else touched. -/
theorem callRedirectFunc_of_mp (q : MasterParticipation → MasterID) (p : Proc)
    (m : MasterParticipation) (hm : p.mp = some m) :
    callRedirectFunc q p RedirectFunc.currentMasterOfMp =
      Except.ok (q m, { p with trace := p.trace ++ [Event.getCurrentMasterID m] }) := by
  simp [callRedirectFunc, hm]

/-- The calls of the termination closures where `mp` is set or not used: in standalone mode
exactly one call, the cancellation of the context `Run` was started under, and no `Stop`; in
elected mode after a successful registration, wherever the election goroutine stands, exactly
one call, `Stop` on the registration. -/
theorem term_hook_actions (apiPrefix host : String) (m : MasterParticipation)
    (is : List LoopInput) :
    (fireOnTermSync (standaloneProc apiPrefix) =
        Except.ok { standaloneProc apiPrefix with
          trace := (standaloneProc apiPrefix).trace ++ [Event.cancel 1] } ∧
      (standaloneProc apiPrefix).trace.filter isRunStart = [Event.goRun 1]) ∧
    fireOnTermSync (registeredProc apiPrefix host m is) =
      Except.ok { registeredProc apiPrefix host m is with
        trace := (registeredProc apiPrefix host m is).trace ++ [Event.stop m] } := by
  refine ⟨?_, ?_⟩
  · rw [standaloneProc_eq]
    simp [fireOnTermSync, List.foldlM, runTermHook, bind, Except.bind, pure, Except.pure,
      isRunStart]
  · have hf := registeredProc_frame apiPrefix host m is
    exact fireOnTermSync_stop _ m hf.2.2.1 hf.1

/-- C9: after a successful registration `m`, the installed redirect function is the closure
over `mp`; each call of it issues exactly one `GetCurrentMasterID` call on `m` and hands
back what the backend answers at that moment, changing nothing but the record of calls.  A
second call, after any further progress of the election goroutine, asks the backend again:
with answers `q1` then `q2` the two calls return `q1 m` and `q2 m`. -/
theorem redirect_queries_backend (apiPrefix host : String) (m : MasterParticipation)
    (is js : List LoopInput) (q1 q2 : MasterParticipation → MasterID) :
    (registeredProc apiPrefix host m is).redirectFunc =
      some RedirectFunc.currentMasterOfMp ∧
    callRedirectFunc q1 (registeredProc apiPrefix host m is) RedirectFunc.currentMasterOfMp =
      Except.ok (q1 m,
        { registeredProc apiPrefix host m is with
          trace := (registeredProc apiPrefix host m is).trace ++
            [Event.getCurrentMasterID m] }) ∧
    callRedirectFunc q2
        (Proc.deliverAll
          { registeredProc apiPrefix host m is with
            trace := (registeredProc apiPrefix host m is).trace ++
              [Event.getCurrentMasterID m] } js)
        RedirectFunc.currentMasterOfMp =
      Except.ok (q2 m,
        { Proc.deliverAll
            { registeredProc apiPrefix host m is with
              trace := (registeredProc apiPrefix host m is).trace ++
                [Event.getCurrentMasterID m] } js with
          trace := (registeredProc apiPrefix host m is).trace ++
            [Event.getCurrentMasterID m, Event.getCurrentMasterID m] }) ∧
    resolveLeader q1 (registeredProc apiPrefix host m is) =
      Except.ok (Resolved.answer (q1 m),
        { registeredProc apiPrefix host m is with
          trace := (registeredProc apiPrefix host m is).trace ++
            [Event.getCurrentMasterID m] }) := by
  have hf := registeredProc_frame apiPrefix host m is
  have h1 := callRedirectFunc_of_mp q1 _ m hf.1
  refine ⟨hf.2.1, h1, ?_, ?_⟩
  · obtain ⟨g1, _, _, g4, _⟩ := deliverAll_frame js
      { registeredProc apiPrefix host m is with
        trace := (registeredProc apiPrefix host m is).trace ++ [Event.getCurrentMasterID m] }
    have h2 := callRedirectFunc_of_mp q2 _ m (g1.trans hf.1)
    rw [h2, g4]
    simp
  · simp [resolveLeader, hf.2.1, h1]

/-! ## The fleet -/

theorem fleetStep_live (f f2 : Fleet) (e : FleetEvent) (h : fleetStep f e = some f2) :
    f2.live = backendStep f.live e := by
  cases e with
  | deliver p i =>
    simp only [fleetStep] at h
    split at h
    · cases h
    · split at h
      · cases h
      · injection h with h
        subst h
        rfl
  | revoke p c =>
    simp only [fleetStep] at h
    injection h with h
    subst h
    rfl

theorem fleetRun_live (sched : List FleetEvent) :
    ∀ f f2 : Fleet, fleetRun f sched = some f2 → f2.live = sched.foldl backendStep f.live := by
  induction sched with
  | nil =>
    intro f f2 h
    simp only [fleetRun] at h
    injection h with h
    subst h
    rfl
  | cons e es ih =>
    intro f f2 h
    simp only [fleetRun] at h
    split at h
    · cases h
    · rename_i f1 h1
      rw [ih f1 f2 h, fleetStep_live f f1 e h1]
      rfl

/-- Under an exclusive backend at most one leadership context is live at any time. -/
theorem backend_live_le_one (sched : List FleetEvent) :
    ∀ live : List (Nat × Ctx), live.length ≤ 1 → backendExclusive live sched = true →
      (sched.foldl backendStep live).length ≤ 1 := by
  induction sched with
  | nil => intro live h _; simpa using h
  | cons e es ih =>
    intro live hlen hex
    simp only [backendExclusive, Bool.and_eq_true] at hex
    obtain ⟨hguard, hrest⟩ := hex
    simp only [List.foldl_cons]
    apply ih _ _ hrest
    cases e with
    | deliver p i =>
      simp only [backendStep]
      cases hg : grantOf i with
      | none => simpa using hlen
      | some c =>
        simp [hg] at hguard
        subst hguard
        simp
    | revoke p c =>
      simp only [backendStep]
      exact le_trans (List.length_erase_le _ _) hlen

theorem liveExecutor_holds (f : Fleet) (p : Nat) (h : liveExecutorAt f p = true) :
    p ∈ holders f := by
  unfold liveExecutorAt at h
  split at h
  · rename_i c _
    have hm : (p, c) ∈ f.live := by simpa using h
    exact List.mem_map.mpr ⟨(p, c), hm, rfl⟩
  · cases h

theorem liveExecutors_le_holders (f : Fleet) :
    (liveExecutors f).length ≤ (holders f).length := by
  have hnd : (liveExecutors f).Nodup := List.Nodup.filter _ (List.nodup_range _)
  have hsub : liveExecutors f ⊆ holders f := by
    intro p hp
    exact liveExecutor_holds f p (List.mem_filter.mp hp).2
  exact (hnd.subperm hsub).length_le

/-- C2 as stated fails: against a backend that grants leadership to one candidate at a
time, after `handover` only process 1 holds a live leadership context, yet processes 0 and 1
are both inside `WorkflowManager.Run`. -/
theorem fleet_two_inside_run :
    backendExclusive [] handover = true ∧
    (fleetRun (Fleet.start 2) handover).map holders = some [1] ∧
    (fleetRun (Fleet.start 2) handover).map insideRun = some [0, 1] ∧
    ¬ ∀ f, fleetRun (Fleet.start 2) handover = some f → (insideRun f).length ≤ 1 := by
  refine ⟨by decide, by decide, by decide, ?_⟩
  intro h
  have h2 := h { pcs := [LoopPc.running 1, LoopPc.running 2], live := [(1, 2)] } (by decide)
  revert h2
  decide

theorem loopStep_running (pc : LoopPc) (i : LoopInput) (c : Ctx) (evs : List Event)
    (h : loopStep pc i = some (LoopPc.running c, evs)) :
    i = LoopInput.waitReturns { ctx := c, err := none } := by
  cases pc with
  | waiting =>
    cases i with
    | waitReturns r =>
      rcases r with ⟨d, e⟩
      match e with
      | none =>
        simp only [loopStep, Option.some.injEq, Prod.mk.injEq, LoopPc.running.injEq] at h
        rw [h.1]
      | some TopoError.ErrInterrupted => simp [loopStep] at h
      | some (TopoError.other msg) => simp [loopStep] at h
    | runReturns => simp [loopStep] at h
    | sleepReturns => simp [loopStep] at h
  | running d => cases i <;> simp [loopStep] at h
  | sleeping => cases i <;> simp [loopStep] at h
  | returned => cases i <;> simp [loopStep] at h

/-- One fleet event keeps this true: a process inside `Run` under `c` got `c` from a
`WaitForMastership` return without error, and `c` is live unless the backend ended it. -/
theorem fleetStep_granted (f f2 : Fleet) (e : FleetEvent) (hist : List FleetEvent)
    (hstep : fleetStep f e = some f2)
    (hinv : ∀ p c, f.pcs[p]? = some (LoopPc.running c) →
      FleetEvent.deliver p (LoopInput.waitReturns { ctx := c, err := none }) ∈ hist ∧
        ((p, c) ∈ f.live ∨ FleetEvent.revoke p c ∈ hist)) :
    ∀ p c, f2.pcs[p]? = some (LoopPc.running c) →
      FleetEvent.deliver p (LoopInput.waitReturns { ctx := c, err := none }) ∈ hist ++ [e] ∧
        ((p, c) ∈ f2.live ∨ FleetEvent.revoke p c ∈ hist ++ [e]) := by
  intro p c hp
  cases e with
  | deliver q i =>
    simp only [fleetStep] at hstep
    split at hstep
    · cases hstep
    · rename_i pc hq
      split at hstep
      · cases hstep
      · rename_i pc2 evs hls
        injection hstep with hstep
        subst hstep
        simp only [List.getElem?_set] at hp
        by_cases hqp : q = p
        · subst hqp
          rw [if_pos rfl] at hp
          split at hp
          · injection hp with hp
            subst hp
            have hi := loopStep_running pc i c evs hls
            subst hi
            refine ⟨by simp, Or.inl ?_⟩
            simp [backendStep, grantOf]
          · cases hp
        · rw [if_neg hqp] at hp
          obtain ⟨h1, h2⟩ := hinv p c hp
          refine ⟨List.mem_append_left _ h1, ?_⟩
          rcases h2 with h2 | h2
          · left
            simp only [backendStep]
            split
            · exact List.mem_cons_of_mem _ h2
            · exact h2
          · exact Or.inr (List.mem_append_left _ h2)
  | revoke q d =>
    simp only [fleetStep] at hstep
    injection hstep with hstep
    subst hstep
    obtain ⟨h1, h2⟩ := hinv p c hp
    refine ⟨List.mem_append_left _ h1, ?_⟩
    rcases h2 with h2 | h2
    · by_cases heq : (p, c) = (q, d)
      · right
        injection heq with hpq hcd
        subst hpq
        subst hcd
        simp
      · left
        simp only [backendStep]
        exact (List.mem_erase_of_ne heq).mpr h2
    · exact Or.inr (List.mem_append_left _ h2)

theorem fleetRun_granted (es : List FleetEvent) :
    ∀ (f f2 : Fleet) (hist : List FleetEvent), fleetRun f es = some f2 →
      (∀ p c, f.pcs[p]? = some (LoopPc.running c) →
        FleetEvent.deliver p (LoopInput.waitReturns { ctx := c, err := none }) ∈ hist ∧
          ((p, c) ∈ f.live ∨ FleetEvent.revoke p c ∈ hist)) →
      ∀ p c, f2.pcs[p]? = some (LoopPc.running c) →
        FleetEvent.deliver p (LoopInput.waitReturns { ctx := c, err := none }) ∈ hist ++ es ∧
          ((p, c) ∈ f2.live ∨ FleetEvent.revoke p c ∈ hist ++ es) := by
  induction es with
  | nil =>
    intro f f2 hist hrun hinv
    simp only [fleetRun] at hrun
    injection hrun with hrun
    subst hrun
    simpa using hinv
  | cons e es ih =>
    intro f f2 hist hrun hinv
    simp only [fleetRun] at hrun
    split at hrun
    · cases hrun
    · rename_i f1 h1
      have hstep := fleetStep_granted f f1 e hist h1 hinv
      have h := ih f1 f2 (hist ++ [e]) hrun hstep
      simpa [List.append_assoc] using h

theorem start_not_running (n p : Nat) (c : Ctx) :
    (Fleet.start n).pcs[p]? ≠ some (LoopPc.running c) := by
  intro h
  simp only [Fleet.start, List.getElem?_replicate] at h
  split at h
  · cases h
  · cases h

/-- C2, amended: for every number of processes and every schedule of grants, revocations and
returns along which the backend grants leadership only while no leadership context is live,
at most one process holds a live leadership context and at most one process is inside
`WorkflowManager.Run` under a live leadership context, that process being the holder; and
every process inside `Run` is there under a context that a `WaitForMastership` return
without error handed to it, which is either still live or has been ended by the backend
while `Run` has not returned yet. -/
theorem fleet_live_exclusive (n : Nat) (sched : List FleetEvent) (f : Fleet)
    (hex : backendExclusive [] sched = true)
    (hrun : fleetRun (Fleet.start n) sched = some f) :
    (holders f).length ≤ 1 ∧ (liveExecutors f).length ≤ 1 ∧
    (∀ p ∈ liveExecutors f, p ∈ holders f) ∧
    (∀ p c, f.pcs[p]? = some (LoopPc.running c) →
      FleetEvent.deliver p (LoopInput.waitReturns { ctx := c, err := none }) ∈ sched ∧
        ((p, c) ∈ f.live ∨ FleetEvent.revoke p c ∈ sched)) := by
  have hlive : f.live.length ≤ 1 := by
    rw [fleetRun_live sched _ f hrun]
    exact backend_live_le_one sched [] (by simp [Fleet.start]) hex
  have hh : (holders f).length ≤ 1 := by simpa [holders] using hlive
  refine ⟨hh, le_trans (liveExecutors_le_holders f) hh, ?_, ?_⟩
  · intro p hp
    exact liveExecutor_holds f p (List.mem_filter.mp hp).2
  · have h := fleetRun_granted sched (Fleet.start n) f [] hrun
      (fun p c hp => absurd hp (start_not_running n p c))
    simpa using h

/-- After `handover` the one live executor is process 1, and process 0 is still inside `Run`
under context 1, which it was granted and which the backend has ended. -/
theorem fleet_live_exclusive_witness :
    (liveExecutors { pcs := [LoopPc.running 1, LoopPc.running 2], live := [(1, 2)] }).length
      ≤ 1 ∧
    (FleetEvent.deliver 0 (LoopInput.waitReturns { ctx := 1, err := none }) ∈ handover ∧
      ((0, 1) ∈ ({ pcs := [LoopPc.running 1, LoopPc.running 2], live := [(1, 2)] } :
          Fleet).live ∨
        FleetEvent.revoke 0 1 ∈ handover)) :=
  ⟨(fleet_live_exclusive 2 handover
      { pcs := [LoopPc.running 1, LoopPc.running 2], live := [(1, 2)] }
      (by decide) (by decide)).2.1,
   (fleet_live_exclusive 2 handover
      { pcs := [LoopPc.running 1, LoopPc.running 2], live := [(1, 2)] }
      (by decide) (by decide)).2.2.2 0 1 (by decide)⟩

end Vtctld
